import Mathlib

/-! # Tar Heels Allocator (`th_alloc.c`): shallow embedding

The allocator's process-wide state (the `levels` array, `big_object_list`,
`errno`, the byte-addressed virtual memory, and the operating system's
mapping service) is one explicit `State` value passed through every operation.
Pointers and `size_t` values are natural numbers below `2^64`; `NULL` is `0`.
A load or store on an unmapped byte, a failed `assert` (`__builtin_trap`) and
an out-of-range array index are reported as errors of type `Err`.  Recursion
and pointer-chasing loops take a fuel argument.
-/

namespace ThAlloc

/-! ## System parameters (the `#define`s) -/

def SUPER_BLOCK_SIZE : Nat := 4096

/-- The C expression is `~(SUPER_BLOCK_SIZE - 1)`, an `int` equal to `-4096`;
used in `addr &= SUPER_BLOCK_MASK` with `addr : uint64_t` it is sign-extended
to 64 bits, which is the value below. -/
def SUPER_BLOCK_MASK : Nat := 2 ^ 64 - SUPER_BLOCK_SIZE

def MIN_ALLOC : Nat := 32
def MAX_ALLOC : Nat := 2048
def RESERVE_SUPERBLOCK_THRESHOLD : Nat := 2
def FREE_POISON : Nat := 0xab
def ALLOC_POISON : Nat := 0xcd
def LEVELS : Nat := 7
def NULL : Nat := 0
def ENOMEM : Int := 12
def EINVAL : Int := 22

/-- The value of `MAP_FAILED`, that is `(void *) -1`. -/
def MAP_FAILED : Nat := 2 ^ 64 - 1

/-- Size of `struct big_object` (three 8-byte fields, not packed). -/
def SIZEOF_BIG_OBJECT : Nat := 24

/-! Field offsets.  `struct superblock_bookkeeping` is packed:
`next` (8 bytes), `free_list` (8 bytes), `free_count` (1 byte), `level` (1 byte). -/

def BKEEP_NEXT : Nat := 0
def BKEEP_FREE_LIST : Nat := 8
def BKEEP_FREE_COUNT : Nat := 16
def BKEEP_LEVEL : Nat := 17

/-! `struct big_object`: `next`, `addr`, `size`, 8 bytes each. -/

def BIG_NEXT : Nat := 0
def BIG_ADDR : Nat := 8
def BIG_SIZE : Nat := 16

/-! ## Errors -/

/-- Ways in which a call does not return normally. -/
inductive Err where
  /-- A load or store touched a byte that is not mapped. -/
  | segv
  /-- The `assert` macro failed and executed `__builtin_trap()`. -/
  | trap
  /-- An array index or shift amount outside what C defines. -/
  | ub
  /-- The model ran out of fuel. -/
  | fuel
  deriving DecidableEq, Repr

/-! ## Memory -/

/-- Byte-addressed virtual memory: `none` for an unmapped byte. -/
abbrev Mem := Nat → Option Nat

def load8 (mem : Mem) (a : Nat) : Except Err Nat :=
  match mem a with
  | some b => .ok b
  | none => .error .segv

/-- Little-endian load of `n` bytes starting at `a`. -/
def loadLE (mem : Mem) : Nat → Nat → Except Err Nat
  | 0, _ => .ok 0
  | n + 1, a => do
    let b ← load8 mem a
    let hi ← loadLE mem n (a + 1)
    pure (b + 256 * hi)

def load64 (mem : Mem) (a : Nat) : Except Err Nat := loadLE mem 8 a

/-- Whether the `n` bytes starting at `a` are all mapped. -/
def mapped (mem : Mem) : Nat → Nat → Bool
  | 0, _ => true
  | n + 1, a => (mem a).isSome && mapped mem n (a + 1)

/-- Byte number `i` of the little-endian representation of `v`. -/
def byteOf (v i : Nat) : Nat := (v / 256 ^ i) % 256

def store64 (mem : Mem) (a v : Nat) : Except Err Mem :=
  if mapped mem 8 a then
    .ok (fun x => if a ≤ x ∧ x < a + 8 then some (byteOf v (x - a)) else mem x)
  else .error .segv

/-! ## Allocator state -/

/-- One pool of superblocks (`struct superblock_pool`), one per size class. -/
structure superblock_pool where
  /-- Address of the first superblock's bookkeeping header, or `NULL`. -/
  next : Nat
  /-- Total number of free objects across all superblocks. -/
  free_objects : Nat
  /-- Superblocks with all entries free. -/
  whole_superblocks : Nat
  deriving DecidableEq, Repr

/-- The process state the allocator reads and writes. -/
structure State where
  /-- The static array `levels[LEVELS]`. -/
  levels : List superblock_pool
  /-- The static `big_object_list`. -/
  big_object_list : Nat
  /-- The thread's `errno`. -/
  errno : Int
  /-- Virtual memory. -/
  mem : Mem
  /-- What the operating system answers to the coming `mmap` calls, in order:
  `some base` for a mapping placed at `base`, `none` for a refusal. An
  exhausted list refuses. -/
  mmap_supply : List (Option Nat)
  /-- The regions given to successful `munmap` calls, most recent first. -/
  unmapped : List (Nat × Nat)

/-- State at process start: the static initialisers of `levels` and
`big_object_list`, nothing mapped yet. -/
def init (supply : List (Option Nat)) : State where
  levels := List.replicate LEVELS ⟨NULL, 0, 0⟩
  big_object_list := NULL
  errno := 0
  mem := fun _ => none
  mmap_supply := supply
  unmapped := []

/-! ## Size classes -/

/-- The body of `size2level` is `(void)(size); return 0;`. -/
def size2level (size : Nat) : Int :=
  let _ := size
  0

/-! ## The operating system's mapping service -/

/-- Length of the whole pages covering `n` bytes. -/
def pageRound (n : Nat) : Nat := (n + (SUPER_BLOCK_SIZE - 1)) / SUPER_BLOCK_SIZE * SUPER_BLOCK_SIZE

/-- The call `mmap_wrap(NULL, length, PROT_READ | PROT_WRITE, MAP_PRIVATE |
MAP_ANONYMOUS, -1, 0)`: a fresh zero-filled mapping at the address the
operating system chooses, or `MAP_FAILED` with `errno` set (`EINVAL` for a
zero length, `ENOMEM` for a refusal). -/
def mmap_wrap (st : State) (length : Nat) : State × Nat :=
  if length = 0 then ({ st with errno := EINVAL }, MAP_FAILED)
  else
    match st.mmap_supply with
    | [] => ({ st with errno := ENOMEM }, MAP_FAILED)
    | none :: rest => ({ st with mmap_supply := rest, errno := ENOMEM }, MAP_FAILED)
    | some base :: rest =>
      ({ st with
          mem := fun a => if base ≤ a ∧ a < base + pageRound length then some 0 else st.mem a
          mmap_supply := rest }, base)

/-- The call `munmap_wrap(addr, length)`; the callers ignore its return value.
`munmap` rejects an unaligned address, a zero length and a range that reaches
past the end of the address space (here the whole 64-bit range), setting
`errno` to `EINVAL`; otherwise it removes every page of the range. -/
def munmap_wrap (st : State) (addr length : Nat) : State :=
  if addr % SUPER_BLOCK_SIZE ≠ 0 ∨ length = 0 ∨ 2 ^ 64 < addr + pageRound length then
    { st with errno := EINVAL }
  else
    { st with
        mem := fun a => if addr ≤ a ∧ a < addr + pageRound length then none else st.mem a
        unmapped := (addr, length) :: st.unmapped }

/-! ## Bookkeeping passes

`enable_bookkeeping` and `disable_bookkeeping` walk every pool's superblock
list, reading each header's `next` field, and issue a Valgrind client request
per header.  The client requests do not change the program's state; the loads
remain. -/

/-- The loop `while (sb) { ...; sb = sb->next; }`. -/
def walk_superblocks (mem : Mem) : Nat → Nat → Except Err Unit
  | fuel, sb =>
    if sb = NULL then .ok ()
    else
      match fuel with
      | 0 => .error .fuel
      | fuel + 1 => do
        let nx ← load64 mem (sb + BKEEP_NEXT)
        walk_superblocks mem fuel nx

def enable_bookkeeping (fuel : Nat) (st : State) : Except Err Unit :=
  (List.range LEVELS).forM fun i =>
    match st.levels[i]? with
    | some pool => walk_superblocks st.mem fuel pool.next
    | none => .error .ub

def disable_bookkeeping (fuel : Nat) (st : State) : Except Err Unit :=
  (List.range LEVELS).forM fun i =>
    match st.levels[i]? with
    | some pool => walk_superblocks st.mem fuel pool.next
    | none => .error .ub

/-! ## `malloc` -/

/-- The function `malloc`.  For `size > MAX_ALLOC` it calls itself for the
record, stores through the returned pointer, maps the region and links the
record.  For every other size the statements `errno = -ENOMEM; return rv;`
(with `rv` still `NULL`) end the call; the pool code that follows them in the
source is never executed. -/
def malloc : Nat → State → Nat → Except Err (State × Nat)
  | 0, _, _ => .error .fuel
  | fuel + 1, st, size => do
    enable_bookkeeping fuel st
    let rv := NULL
    let _power := size2level size
    if size > MAX_ALLOC then
      let (st1, biggun) ← malloc fuel st SIZEOF_BIG_OBJECT
      -- biggun->next = big_object_list;
      let m1 ← store64 st1.mem (biggun + BIG_NEXT) st1.big_object_list
      -- biggun->addr = mmap_wrap(NULL, size, ...);
      let (st2, addr) := mmap_wrap { st1 with mem := m1 } size
      let m2 ← store64 st2.mem (biggun + BIG_ADDR) addr
      -- assert(biggun->addr);
      if addr = NULL then .error .trap
      else
        -- biggun->size = size; big_object_list = biggun;
        let m3 ← store64 m2 (biggun + BIG_SIZE) size
        pure ({ st2 with mem := m3, big_object_list := biggun }, addr)
    else
      pure ({ st with errno := -ENOMEM }, rv)

/-! ## `free` -/

/-- The function `obj2bkeep`: `addr &= SUPER_BLOCK_MASK`. -/
def obj2bkeep (ptr : Nat) : Nat := ptr &&& SUPER_BLOCK_MASK

/-- The scan of `free` over the big-object list, from `tmp` with predecessor
`last`: the first record whose `addr` equals `ptr`, with its predecessor, or
`none` when the list ends without a match. -/
def big_scan (mem : Mem) (ptr : Nat) : Nat → Nat → Nat → Except Err (Option (Nat × Nat))
  | fuel, tmp, last =>
    if tmp = NULL then .ok none
    else
      match fuel with
      | 0 => .error .fuel
      | fuel + 1 => do
        let addr ← load64 mem (tmp + BIG_ADDR)
        if addr = ptr then pure (some (tmp, last))
        else
          let nx ← load64 mem (tmp + BIG_NEXT)
          big_scan mem ptr fuel nx tmp

/-- The loop `while (levels[power].whole_superblocks >
RESERVE_SUPERBLOCK_THRESHOLD) { break; }`: its body is the single `break`. -/
def release_loop (st : State) (pool : superblock_pool) : State :=
  if pool.whole_superblocks > RESERVE_SUPERBLOCK_THRESHOLD then st else st

/-- The function `free`. -/
def free : Nat → State → Nat → Except Err State
  | fuel, st, ptr =>
    if ptr = NULL then .ok st
    else
      match fuel with
      | 0 => .error .fuel
      | fuel + 1 => do
        enable_bookkeeping fuel st
        let bkeep := obj2bkeep ptr
        -- int power = bkeep->level;
        let power ← load8 st.mem (bkeep + BKEEP_LEVEL)
        match ← big_scan st.mem ptr fuel st.big_object_list NULL with
        | some (tmp, last) =>
          -- munmap_wrap(tmp->addr, tmp->size);
          let addr ← load64 st.mem (tmp + BIG_ADDR)
          let size ← load64 st.mem (tmp + BIG_SIZE)
          let st1 := munmap_wrap st addr size
          -- unlink: big_object_list = tmp->next, or last->next = tmp->next
          let nx ← load64 st1.mem (tmp + BIG_NEXT)
          let st2 ←
            if last = NULL then pure { st1 with big_object_list := nx }
            else do
              let m ← store64 st1.mem (last + BIG_NEXT) nx
              pure { st1 with mem := m }
          free fuel st2 tmp
        | none =>
          -- No statement returns the object to its superblock or poisons it.
          -- The argument bkeep->free_list of the Valgrind request is loaded.
          let _ ← load64 st.mem (bkeep + BKEEP_FREE_LIST)
          if LEVELS ≤ power then .error .ub
          else
            match st.levels[power]? with
            | none => .error .ub
            | some pool =>
              let st3 := release_loop st pool
              disable_bookkeeping fuel st3
              pure st3

/-! ## Call sequences -/

/-- The call `free(ptr)` made `n` times in a row (the loop of `test6`). -/
def free_times (fuel : Nat) (ptr : Nat) : Nat → State → Except Err State
  | 0, st => .ok st
  | n + 1, st => do
    let st1 ← free fuel st ptr
    free_times fuel ptr n st1

/-- The call `malloc(size)` made `n` times in a row; the returned pointers in
call order. -/
def mallocs (fuel : Nat) (size : Nat) : Nat → State → Except Err (State × List Nat)
  | 0, st => .ok (st, [])
  | n + 1, st => do
    let (st1, p) ← malloc fuel st size
    let (st2, ps) ← mallocs fuel size n st1
    pure (st2, p :: ps)

/-- The pointers of a list freed one after the other, first to last. -/
def frees (fuel : Nat) : State → List Nat → Except Err State
  | st, [] => .ok st
  | st, p :: ps => do
    let st1 ← free fuel st p
    frees fuel st1 ps

/-- The allocator calls of `test4`: three `malloc(2048)`, then the three
returned pointers freed in allocation order. -/
def test4 (fuel : Nat) (st : State) : Except Err (State × List Nat) := do
  let (st1, ps) ← mallocs fuel 2048 3 st
  let st2 ← frees fuel st1 ps
  pure (st2, ps)

/-- Per level, the pair `(free_objects, whole_superblocks)`. -/
def counters (st : State) : List (Nat × Nat) :=
  st.levels.map fun pool => (pool.free_objects, pool.whole_superblocks)

/-- States reached from process start by calls of `malloc` and `free` that
return. -/
inductive Reachable (supply : List (Option Nat)) : State → Prop
  | start : Reachable supply (init supply)
  | malloc_step {st st1 : State} {fuel size p : Nat} :
      Reachable supply st → malloc fuel st size = .ok (st1, p) → Reachable supply st1
  | free_step {st st1 : State} {fuel ptr : Nat} :
      Reachable supply st → free fuel st ptr = .ok st1 → Reachable supply st1

/-- A state laid out as the data model describes, with one level-0 superblock
in the page at `0x10000`: its header (bytes 0..17) has `next = NULL`,
`free_list = NULL`, `free_count = 0`, `level = 0`, so all of its 127 objects
(at `0x10020`, `0x10040`, ...) are allocated, and every object byte still holds
`ALLOC_POISON`. -/
def full_superblock_state : State where
  levels := ⟨0x10000, 0, 0⟩ :: List.replicate 6 ⟨NULL, 0, 0⟩
  big_object_list := NULL
  errno := 0
  mem := fun a =>
    if 0x10000 ≤ a ∧ a < 0x11000 then
      (if a < 0x10000 + 18 then some 0 else some ALLOC_POISON)
    else none
  mmap_supply := []
  unmapped := []

/-! ## `alloc_super` -/

def store8 (mem : Mem) (a v : Nat) : Except Err Mem :=
  if (mem a).isSome then .ok (fun x => if x = a then some (v % 256) else mem x)
  else .error .segv

/-- The loop `for (cursor += bytes_per_object; free_objects--; cursor +=
bytes_per_object)` of `alloc_super`, entered with `cursor` already advanced
once: each round stores the current list head into the object at `cursor` and
makes that object the head. -/
def populate_free_list (sb bytes_per_object : Nat) : Nat → Nat → Mem → Except Err Mem
  | 0, _, mem => .ok mem
  | free_objects + 1, cursor, mem => do
    let head ← load64 mem (sb + BKEEP_FREE_LIST)
    let m1 ← store64 mem cursor head
    let m2 ← store64 m1 (sb + BKEEP_FREE_LIST) cursor
    populate_free_list sb bytes_per_object free_objects (cursor + bytes_per_object) m2

/-- The function `alloc_super`.  Its local `page` is declared without an
initialiser and never assigned (the mapping call is left as `// Your code
here`); the indeterminate value the variable holds is the argument `page`.
The locals `free_objects` and `bytes_per_object` keep their initial value 0,
and `free_count` and the pool's `free_objects` are not written. -/
def alloc_super (st : State) (power page : Nat) : Except Err (State × Nat) :=
  let free_objects := 0
  let bytes_per_object := 0
  let sb := page
  match st.levels[power]? with
  | none => .error .ub
  | some pool => do
    -- sb->bkeep.next = levels[power].next;
    let m1 ← store64 st.mem (sb + BKEEP_NEXT) pool.next
    -- levels[power].next = &sb->bkeep; levels[power].whole_superblocks++;
    let pool1 : superblock_pool :=
      { pool with next := sb, whole_superblocks := (pool.whole_superblocks + 1) % 2 ^ 64 }
    -- sb->bkeep.level = power; sb->bkeep.free_list = NULL;
    let m2 ← store8 m1 (sb + BKEEP_LEVEL) power
    let m3 ← store64 m2 (sb + BKEEP_FREE_LIST) NULL
    let m4 ← populate_free_list sb bytes_per_object free_objects (sb + bytes_per_object) m3
    pure ({ st with levels := st.levels.set power pool1, mem := m4 }, sb)

/-! ## Example states -/

/-- Unchecked 8-byte little-endian write, used to lay out example states. -/
def poke64 (mem : Mem) (a v : Nat) : Mem :=
  fun x => if a ≤ x ∧ x < a + 8 then some (byteOf v (x - a)) else mem x

/-- Unchecked 1-byte write, used to lay out example states. -/
def poke8 (mem : Mem) (a v : Nat) : Mem :=
  fun x => if x = a then some v else mem x

/-- The memory `mem` with `len` zero bytes mapped at `base`. -/
def zeroPages (base len : Nat) (mem : Mem) : Mem :=
  fun a => if base ≤ a ∧ a < base + len then some 0 else mem a

/-- The initial state with an operating system that refuses every mapping and
one zero-filled page present at `0x10000`. -/
def fresh_page_state : State :=
  { init [none] with mem := zeroPages 0x10000 4096 (fun _ => none) }

/-- A state laid out as the data model describes, with one level-0 superblock
at `0x10000` holding one free object: header `next = NULL`,
`free_list = 0x10020`, `free_count = 1`, `level = 0`; the object at `0x10020`
has a `NULL` link; the pool counts one free object. -/
def one_free_state : State where
  levels := ⟨0x10000, 1, 0⟩ :: List.replicate 6 ⟨NULL, 0, 0⟩
  big_object_list := NULL
  errno := 0
  mem := poke8 (poke64 (zeroPages 0x10000 4096 (fun _ => none)) (0x10000 + BKEEP_FREE_LIST) 0x10020)
    (0x10000 + BKEEP_FREE_COUNT) 1
  mmap_supply := []
  unmapped := []

/-! ## Heap shapes -/

/-- One record of the big-object list: where the record lies and its `addr`
and `size` fields. -/
structure big_record where
  ptr : Nat
  addr : Nat
  size : Nat
  deriving DecidableEq, Repr

/-- Address of the first record of a list that continues at `tail`. -/
def headPtr (recs : List big_record) (tail : Nat) : Nat :=
  match recs with
  | [] => tail
  | r :: _ => r.ptr

/-- The records `recs` lie in memory as a linked list segment: every record is
non-null, its three fields are readable, and its `next` field holds the
address of the following record, the last one holding `tail`. -/
def BigSeg (mem : Mem) : List big_record → Nat → Prop
  | [], _ => True
  | r :: rest, tail =>
    r.ptr ≠ NULL ∧ load64 mem (r.ptr + BIG_NEXT) = .ok (headPtr rest tail) ∧
      load64 mem (r.ptr + BIG_ADDR) = .ok r.addr ∧ load64 mem (r.ptr + BIG_SIZE) = .ok r.size ∧
      BigSeg mem rest tail

/-- The headers `c` form a `NULL`-terminated superblock list in memory. -/
def SbList (mem : Mem) : List Nat → Prop
  | [] => True
  | sb :: rest =>
    sb ≠ NULL ∧ load64 mem (sb + BKEEP_NEXT) = .ok (rest.headD NULL) ∧ SbList mem rest

/-- The pools of `st` are finite acyclic lists of page-aligned superblocks
whose headers are readable and name a valid level; `chains` lists the
superblock list of every pool. -/
structure PoolsOk (st : State) (chains : List (List Nat)) : Prop where
  levels_len : st.levels.length = LEVELS
  chain_of_pool : ∀ pool ∈ st.levels, ∃ c ∈ chains, pool.next = c.headD NULL
  chain_ok : ∀ c ∈ chains, SbList st.mem c
  sb_aligned : ∀ c ∈ chains, ∀ sb ∈ c, sb % SUPER_BLOCK_SIZE = 0 ∧ sb + SUPER_BLOCK_SIZE ≤ 2 ^ 64
  sb_free_list : ∀ c ∈ chains, ∀ sb ∈ c, ∃ fl, load64 st.mem (sb + BKEEP_FREE_LIST) = .ok fl
  sb_level : ∀ c ∈ chains, ∀ sb ∈ c, ∃ l, load8 st.mem (sb + BKEEP_LEVEL) = .ok l ∧ l < LEVELS

/-- A state whose big-object list is the finite list `recs`, laid out as the
data model describes: the records are distinct pooled objects inside
superblocks (past the header slot), and every tracked region is a page-aligned
mapping of more than `MAX_ALLOC` bytes that is mapped and lies apart from
every superblock. -/
structure BigHeap (st : State) (chains : List (List Nat)) (recs : List big_record) : Prop where
  pools : PoolsOk st chains
  head : st.big_object_list = headPtr recs NULL
  seg : BigSeg st.mem recs NULL
  rec_in_sb : ∀ r ∈ recs, ∃ c ∈ chains, ∃ sb ∈ c,
    sb + MIN_ALLOC ≤ r.ptr ∧ r.ptr + SIZEOF_BIG_OBJECT ≤ sb + SUPER_BLOCK_SIZE
  rec_disjoint : recs.Pairwise fun r s =>
    r.ptr + SIZEOF_BIG_OBJECT ≤ s.ptr ∨ s.ptr + SIZEOF_BIG_OBJECT ≤ r.ptr
  region_aligned : ∀ r ∈ recs,
    r.addr % SUPER_BLOCK_SIZE = 0 ∧ MAX_ALLOC < r.size ∧ r.addr + pageRound r.size ≤ 2 ^ 64
  region_mapped : ∀ r ∈ recs, ∀ a, r.addr ≤ a → a < r.addr + pageRound r.size →
    (st.mem a).isSome = true
  region_sep : ∀ r ∈ recs, ∀ c ∈ chains, ∀ sb ∈ c,
    r.addr + pageRound r.size ≤ sb ∨ sb + SUPER_BLOCK_SIZE ≤ r.addr

/-- A state with three tracked large objects.  The level-0 superblock at
`0x10000` (header all zero) holds the records at `0x10020`, `0x10040` and
`0x10060`, linked in this order, for the regions `0x20000` (8192 bytes),
`0x30000` (3000 bytes) and `0x40000` (5000 bytes). -/
def big_list_state : State where
  levels := ⟨0x10000, 0, 0⟩ :: List.replicate 6 ⟨NULL, 0, 0⟩
  big_object_list := 0x10020
  errno := 0
  mem :=
    poke64 (poke64 (poke64
      (poke64 (poke64 (poke64
        (poke64 (poke64
          (zeroPages 0x10000 4096 (zeroPages 0x20000 8192 (zeroPages 0x30000 4096
            (zeroPages 0x40000 8192 (fun _ => none)))))
          0x10020 0x10040) 0x10028 0x20000) 0x10030 8192)
        0x10040 0x10060) 0x10048 0x30000) 0x10050 3000)
      0x10068 0x40000) 0x10070 5000
  mmap_supply := []
  unmapped := []

/-- The records of `big_list_state`. -/
def big_list_records : List big_record :=
  [⟨0x10020, 0x20000, 8192⟩, ⟨0x10040, 0x30000, 3000⟩, ⟨0x10060, 0x40000, 5000⟩]

/-- The initial state with an operating system that refuses every mapping and
a zero-filled page present at address 0, so that a store through `NULL` does
not fault. -/
def null_page_state : State :=
  { init [none] with mem := zeroPages 0 4096 (fun _ => none) }

/-! ## The test harness (`test1.c`)

The harness keeps its own table `thingies` of the allocations it holds.  A
failed `assert` of the harness aborts the process; it is reported as
`Err.trap`, like a failed `assert` of the allocator. -/

theorem walk_superblocks_null (mem : Mem) (fuel : Nat) :
    walk_superblocks mem fuel NULL = .ok () := by
  unfold walk_superblocks; simp

theorem big_scan_null (mem : Mem) (ptr fuel last : Nat) :
    big_scan mem ptr fuel NULL last = .ok none := by
  unfold big_scan; simp

/-- With every pool's list empty the bookkeeping pass reads no memory. -/
theorem enable_bookkeeping_empty (fuel : Nat) (st : State)
    (h : st.levels = List.replicate LEVELS ⟨NULL, 0, 0⟩) :
    enable_bookkeeping fuel st = .ok () := by
  simp [enable_bookkeeping, h, LEVELS, List.range, List.range.loop, List.replicate,
    walk_superblocks_null]
  rfl

/-- A request of at most `MAX_ALLOC` bytes ends at `return rv` with `rv = NULL`. -/
theorem malloc_pooled (fuel : Nat) (st : State) (size : Nat)
    (h : st.levels = List.replicate LEVELS ⟨NULL, 0, 0⟩) (hs : size ≤ MAX_ALLOC) :
    malloc (fuel + 1) st size = .ok ({ st with errno := -ENOMEM }, NULL) := by
  have hs1 : ¬ size > MAX_ALLOC := by omega
  simp [malloc, enable_bookkeeping_empty fuel st h, hs1]

/-- With an empty big-object list, a call of `free` that returns leaves the
state as it was. -/
theorem free_without_big (fuel : Nat) (st st1 : State) (p : Nat)
    (hbig : st.big_object_list = NULL) (h : free fuel st p = .ok st1) : st1 = st := by
  unfold free at h
  split at h
  · cases h; rfl
  · cases fuel with
    | zero => simp at h
    | succ n =>
      simp only [hbig, big_scan_null, release_loop] at h
      cases h1 : enable_bookkeeping n st <;> simp [h1, bind, Except.bind] at h
      cases h2 : load8 st.mem (obj2bkeep p + BKEEP_LEVEL) <;> simp [h2] at h
      split at h
      · simp at h
      · split at h
        · simp at h
        · split at h
          · simp at h
          · split at h
            · simp at h
            · simp [pure, Except.pure] at h
              exact h.symm

theorem free_null (fuel : Nat) (st : State) : free fuel st NULL = .ok st := by
  unfold free; simp

theorem frees_without_big (fuel : Nat) (st st1 : State) (ps : List Nat)
    (hbig : st.big_object_list = NULL) (h : frees fuel st ps = .ok st1) :
    st1 = st ∧ ∀ p ∈ ps, free fuel st p = .ok st := by
  induction ps with
  | nil =>
    simp [frees] at h
    exact ⟨h.symm, by simp⟩
  | cons q qs ih =>
    simp only [frees, bind, Except.bind] at h
    cases hq : free fuel st q with
    | error e => simp [hq] at h
    | ok st2 =>
      have h2 : st2 = st := free_without_big fuel st st2 q hbig hq
      subst h2
      simp only [hq] at h
      obtain ⟨h3, h4⟩ := ih h
      refine ⟨h3, ?_⟩
      intro x hx
      rcases List.mem_cons.mp hx with hx | hx
      · subst hx; exact hq
      · exact h4 x hx

theorem frees_of_all (fuel : Nat) (st : State) (ps : List Nat)
    (h : ∀ p ∈ ps, free fuel st p = .ok st) : frees fuel st ps = .ok st := by
  induction ps with
  | nil => rfl
  | cons q qs ih =>
    have hq : free fuel st q = .ok st := h q (List.mem_cons_self q qs)
    have hr : frees fuel st qs = .ok st := ih (fun x hx => h x (List.mem_cons_of_mem q hx))
    simp only [frees, bind, Except.bind, hq, hr]

/-- With an empty big-object list, pointers whose frees all return in one
order can be freed in any other order, with the same final state. -/
theorem frees_perm (fuel : Nat) (st st1 : State) (ps qs : List Nat)
    (hbig : st.big_object_list = NULL) (hperm : qs.Perm ps)
    (h : frees fuel st ps = .ok st1) : frees fuel st qs = .ok st1 := by
  obtain ⟨h1, h2⟩ := frees_without_big fuel st st1 ps hbig h
  subst h1
  exact frees_of_all fuel st1 qs (fun x hx => h2 x (hperm.subset hx))

/-- From a state with empty pools, `n` pooled requests in a row all return
`NULL` and change nothing but `errno`. -/
theorem mallocs_pooled (fuel size : Nat) (hs : size ≤ MAX_ALLOC) (n : Nat) (st : State)
    (h : st.levels = List.replicate LEVELS ⟨NULL, 0, 0⟩) :
    ∃ e, mallocs (fuel + 1) size n st = .ok ({ st with errno := e }, List.replicate n NULL) := by
  induction n generalizing st with
  | zero => exact ⟨st.errno, rfl⟩
  | succ k ih =>
    obtain ⟨e, he⟩ := ih { st with errno := -ENOMEM } h
    refine ⟨e, ?_⟩
    simp only [mallocs, bind, Except.bind, malloc_pooled fuel st size h hs, he]
    rfl

/-- A request above `MAX_ALLOC` made while nothing is mapped never returns:
the record pointer is `NULL` and the store `biggun->next = ...` faults. -/
theorem malloc_large_unmapped (fuel : Nat) (st : State) (size : Nat)
    (h : st.levels = List.replicate LEVELS ⟨NULL, 0, 0⟩) (hm : st.mem = fun _ => none)
    (hs : MAX_ALLOC < size) : ∃ e, malloc fuel st size = .error e := by
  cases fuel with
  | zero => exact ⟨.fuel, rfl⟩
  | succ n =>
    cases n with
    | zero =>
      refine ⟨.fuel, ?_⟩
      unfold malloc
      have h0 : malloc 0 st SIZEOF_BIG_OBJECT = .error .fuel := rfl
      simp only [enable_bookkeeping_empty 0 st h, hs, h0, bind, Except.bind, gt_iff_lt, if_true]
    | succ k =>
      refine ⟨.segv, ?_⟩
      have hk : SIZEOF_BIG_OBJECT ≤ MAX_ALLOC := by decide
      unfold malloc
      have h0 := malloc_pooled k st SIZEOF_BIG_OBJECT h hk
      have h1 : store64 st.mem (NULL + BIG_NEXT) st.big_object_list = .error .segv := by
        simp [store64, mapped, hm]
      simp only [enable_bookkeeping_empty (k + 1) st h, hs, h0, h1, bind, Except.bind,
        gt_iff_lt, if_true]

/-- Every reachable state is the initial one up to `errno`. -/
theorem reachable_is_init (supply : List (Option Nat)) (st : State)
    (h : Reachable supply st) : ∃ e, st = { init supply with errno := e } := by
  induction h with
  | start => exact ⟨0, rfl⟩
  | @malloc_step st st1 fuel size p _ hm ih =>
    obtain ⟨e, he⟩ := ih
    have hl : st.levels = List.replicate LEVELS ⟨NULL, 0, 0⟩ := by rw [he]; rfl
    have hmem : st.mem = fun _ => none := by rw [he]; rfl
    by_cases hs : size ≤ MAX_ALLOC
    · cases fuel with
      | zero => simp [malloc] at hm
      | succ n =>
        rw [malloc_pooled n st size hl hs] at hm
        cases hm
        exact ⟨-ENOMEM, by rw [he]⟩
    · obtain ⟨e2, he2⟩ := malloc_large_unmapped fuel st size hl hmem (by omega)
      rw [he2] at hm
      cases hm
  | @free_step st st1 fuel ptr _ hf ih =>
    obtain ⟨e, he⟩ := ih
    have hb : st.big_object_list = NULL := by rw [he]; rfl
    have := free_without_big fuel st st1 ptr hb hf
    exact ⟨e, by rw [this, he]⟩

/-- Three allocated objects of `full_superblock_state` freed in allocation
order and in another order: both runs return the same state. -/
theorem frees_full_superblock_any_order :
    frees 2 full_superblock_state [0x10020, 0x10040, 0x10060] = .ok full_superblock_state ∧
      frees 2 full_superblock_state [0x10060, 0x10020, 0x10040] = .ok full_superblock_state :=
  ⟨rfl, frees_perm 2 _ _ [0x10020, 0x10040, 0x10060] _ rfl (by decide) rfl⟩

/-! ## Loads, stores and list walks -/

theorem obj2bkeep_mask_testBit (i : Nat) :
    SUPER_BLOCK_MASK.testBit i = (decide (12 ≤ i) && decide (i < 64)) := by
  have h : SUPER_BLOCK_MASK = (2 ^ 52 - 1) <<< 12 := by decide
  rw [h, Nat.testBit_shiftLeft, Nat.testBit_two_pow_sub_one]
  by_cases h1 : 12 ≤ i <;> by_cases h2 : i < 64 <;> simp [h1, h2] <;> omega

/-- Masking a 64-bit address with `SUPER_BLOCK_MASK` clears its low 12 bits. -/
theorem obj2bkeep_eq (a : Nat) (ha : a < 2 ^ 64) :
    obj2bkeep a = a - a % SUPER_BLOCK_SIZE := by
  have h1 : a - a % SUPER_BLOCK_SIZE = (a >>> 12) <<< 12 := by
    simp only [SUPER_BLOCK_SIZE, Nat.shiftRight_eq_div_pow, Nat.shiftLeft_eq]
    omega
  rw [h1]
  apply Nat.eq_of_testBit_eq
  intro i
  unfold obj2bkeep
  rw [Nat.testBit_land, obj2bkeep_mask_testBit, Nat.testBit_shiftLeft, Nat.testBit_shiftRight]
  by_cases h2 : 12 ≤ i
  · by_cases h3 : i < 64
    · simp [h2, h3]
    · have : a.testBit i = false :=
        Nat.testBit_lt_two_pow (lt_of_lt_of_le ha (Nat.pow_le_pow_right (by decide) (by omega)))
      simp [h2, h3, this]
  · simp [h2]

/-- An address inside the page at the aligned base `sb` is masked to `sb`. -/
theorem obj2bkeep_in_page (sb a : Nat) (hal : sb % SUPER_BLOCK_SIZE = 0)
    (hlo : sb ≤ a) (hhi : a < sb + SUPER_BLOCK_SIZE) (hb : sb + SUPER_BLOCK_SIZE ≤ 2 ^ 64) :
    obj2bkeep a = sb := by
  rw [obj2bkeep_eq a (by omega)]
  simp only [SUPER_BLOCK_SIZE] at *
  omega

theorem loadLE_congr (m1 m2 : Mem) (n a : Nat) (h : ∀ i, i < n → m2 (a + i) = m1 (a + i)) :
    loadLE m2 n a = loadLE m1 n a := by
  induction n generalizing a with
  | zero => rfl
  | succ k ih =>
    have h0 : m2 a = m1 a := by simpa using h 0 (by omega)
    have h1 : loadLE m2 k (a + 1) = loadLE m1 k (a + 1) :=
      ih (a + 1) (fun i hi => by
        have := h (i + 1) (by omega)
        rwa [show a + (i + 1) = a + 1 + i by omega] at this)
    simp only [loadLE, load8, h0, h1]

theorem load64_congr (m1 m2 : Mem) (a : Nat) (h : ∀ x, a ≤ x → x < a + 8 → m2 x = m1 x) :
    load64 m2 a = load64 m1 a :=
  loadLE_congr m1 m2 8 a (fun i hi => h (a + i) (by omega) (by omega))

theorem load8_congr (m1 m2 : Mem) (a : Nat) (h : m2 a = m1 a) : load8 m2 a = load8 m1 a := by
  simp only [load8, h]

theorem loadLE_mapped (m : Mem) (n a v : Nat) (h : loadLE m n a = .ok v) :
    mapped m n a = true := by
  induction n generalizing a v with
  | zero => rfl
  | succ k ih =>
    simp only [loadLE, load8, bind, Except.bind] at h
    cases h0 : m a with
    | none => simp [h0] at h
    | some b =>
      simp only [h0] at h
      cases h1 : loadLE m k (a + 1) with
      | error e => simp [h1] at h
      | ok w => simp [mapped, h0, ih (a + 1) w h1]

theorem mapped_iff (m : Mem) (n a : Nat) :
    mapped m n a = true ↔ ∀ i, i < n → (m (a + i)).isSome = true := by
  induction n generalizing a with
  | zero => simp [mapped]
  | succ k ih =>
    simp only [mapped, Bool.and_eq_true, ih]
    constructor
    · rintro ⟨h0, h1⟩ i hi
      cases i with
      | zero => simpa using h0
      | succ j =>
        have := h1 j (by omega)
        rwa [show a + 1 + j = a + (j + 1) by omega] at this
    · intro h
      refine ⟨by simpa using h 0 (by omega), fun i hi => ?_⟩
      have := h (i + 1) (by omega)
      rwa [show a + (i + 1) = a + 1 + i by omega] at this

/-- Reading back `n` bytes that hold the little-endian digits of `v`. -/
theorem loadLE_digits (m : Mem) (n a v : Nat)
    (h : ∀ i, i < n → m (a + i) = some (byteOf v i)) :
    loadLE m n a = .ok (v % 256 ^ n) := by
  induction n generalizing a v with
  | zero => simp [loadLE, Nat.mod_one]
  | succ k ih =>
    have h0 : m a = some (v % 256) := by
      have := h 0 (by omega)
      simpa [byteOf] using this
    have h1 : loadLE m k (a + 1) = .ok ((v / 256) % 256 ^ k) :=
      ih (a + 1) (v / 256) (fun i hi => by
        have := h (i + 1) (by omega)
        rw [show a + (i + 1) = a + 1 + i by omega] at this
        rw [this]
        simp only [byteOf, pow_succ, Nat.div_div_eq_div_mul]
        rw [Nat.mul_comm])
    simp only [loadLE, load8, h0, h1, bind, Except.bind, pure, Except.pure]
    rw [Nat.pow_succ', Nat.mod_mul]

/-- A 64-bit value stored and read back. -/
theorem load64_poke64 (m : Mem) (a v : Nat) (hv : v < 2 ^ 64) :
    load64 (poke64 m a v) a = .ok v := by
  have h := loadLE_digits (poke64 m a v) 8 a v (fun i hi => by
    have h1 : a ≤ a + i ∧ a + i < a + 8 := ⟨by omega, by omega⟩
    simp only [poke64, h1, and_self, if_true, Nat.add_sub_cancel_left])
  rw [Nat.mod_eq_of_lt (by simpa using hv)] at h
  exact h

theorem store64_ok (m : Mem) (a v : Nat) (h : mapped m 8 a = true) :
    store64 m a v = .ok (poke64 m a v) := by
  simp only [store64, h, if_true]
  rfl

theorem poke64_isSome (m : Mem) (a v x : Nat) (h : mapped m 8 a = true) :
    ((poke64 m a v) x).isSome = (m x).isSome := by
  unfold poke64
  split
  · rename_i hx
    have := (mapped_iff m 8 a).mp h (x - a) (by omega)
    rw [show a + (x - a) = x by omega] at this
    simp [this]
  · rfl

/-! ## Superblock lists -/

theorem SbList_congr (m1 m2 : Mem) (c : List Nat) (h : SbList m1 c)
    (hm : ∀ sb ∈ c, ∀ x, sb ≤ x → x < sb + 8 → m2 x = m1 x) : SbList m2 c := by
  induction c with
  | nil => trivial
  | cons sb rest ih =>
    obtain ⟨h1, h2, h3⟩ := h
    refine ⟨h1, ?_, ih h3 (fun s hs => hm s (List.mem_cons_of_mem sb hs))⟩
    rw [← h2]
    exact load64_congr m1 m2 _ (fun x hx1 hx2 =>
      hm sb (List.mem_cons_self sb rest) x (by simpa [BKEEP_NEXT] using hx1)
        (by simpa [BKEEP_NEXT] using hx2))

/-- A walk over a well-formed list succeeds once the fuel covers its length. -/
theorem walk_superblocks_ok (m : Mem) (c : List Nat) (fuel : Nat) (h : SbList m c)
    (hf : c.length ≤ fuel) : walk_superblocks m fuel (c.headD NULL) = .ok () := by
  induction c generalizing fuel with
  | nil => exact walk_superblocks_null m fuel
  | cons sb rest ih =>
    obtain ⟨h1, h2, h3⟩ := h
    cases fuel with
    | zero => simp at hf
    | succ k =>
      unfold walk_superblocks
      simp only [List.headD_cons, h1, if_false, h2, bind, Except.bind]
      exact ih k h3 (by simpa using hf)

theorem enable_bookkeeping_ok (fuel : Nat) (st : State) (hlen : st.levels.length = LEVELS)
    (h : ∀ pool ∈ st.levels, walk_superblocks st.mem fuel pool.next = .ok ()) :
    enable_bookkeeping fuel st = .ok () := by
  have hg : ∀ i, i < 7 → ∃ pool, st.levels[i]? = some pool ∧
      walk_superblocks st.mem fuel pool.next = .ok () := by
    intro i hi
    have hi2 : i < st.levels.length := by rw [hlen]; exact hi
    exact ⟨st.levels[i], List.getElem?_eq_getElem hi2, h _ (List.getElem_mem hi2)⟩
  obtain ⟨p0, e0, w0⟩ := hg 0 (by omega)
  obtain ⟨p1, e1, w1⟩ := hg 1 (by omega)
  obtain ⟨p2, e2, w2⟩ := hg 2 (by omega)
  obtain ⟨p3, e3, w3⟩ := hg 3 (by omega)
  obtain ⟨p4, e4, w4⟩ := hg 4 (by omega)
  obtain ⟨p5, e5, w5⟩ := hg 5 (by omega)
  obtain ⟨p6, e6, w6⟩ := hg 6 (by omega)
  simp [enable_bookkeeping, LEVELS, List.range, List.range.loop, e0, e1, e2, e3, e4, e5, e6,
    w0, w1, w2, w3, w4, w5, w6]
  rfl

theorem disable_bookkeeping_eq (fuel : Nat) (st : State) :
    disable_bookkeeping fuel st = enable_bookkeeping fuel st := rfl

/-- With well-formed pools both bookkeeping passes succeed. -/
theorem PoolsOk.bookkeeping {st : State} {chains : List (List Nat)} (h : PoolsOk st chains)
    (fuel : Nat) (hf : ∀ c ∈ chains, c.length ≤ fuel) :
    enable_bookkeeping fuel st = .ok () := by
  apply enable_bookkeeping_ok fuel st h.levels_len
  intro pool hp
  obtain ⟨c, hc, hn⟩ := h.chain_of_pool pool hp
  rw [hn]
  exact walk_superblocks_ok st.mem c fuel (h.chain_ok c hc) (hf c hc)

/-! ## The big-object list -/

theorem headPtr_append (xs ys : List big_record) (tail : Nat) :
    headPtr (xs ++ ys) tail = headPtr xs (headPtr ys tail) := by
  cases xs <;> rfl

theorem headPtr_cons (r : big_record) (rest : List big_record) (tail : Nat) :
    headPtr (r :: rest) tail = r.ptr := rfl

theorem headPtr_nil (tail : Nat) : headPtr [] tail = tail := rfl

theorem BigSeg_cons (m : Mem) (r : big_record) (rest : List big_record) (tail : Nat) :
    BigSeg m (r :: rest) tail ↔
      (r.ptr ≠ NULL ∧ load64 m (r.ptr + BIG_NEXT) = .ok (headPtr rest tail) ∧
        load64 m (r.ptr + BIG_ADDR) = .ok r.addr ∧ load64 m (r.ptr + BIG_SIZE) = .ok r.size ∧
        BigSeg m rest tail) := Iff.rfl

theorem BigSeg_congr (m1 m2 : Mem) (recs : List big_record) (tail : Nat)
    (h : BigSeg m1 recs tail)
    (hm : ∀ r ∈ recs, ∀ x, r.ptr ≤ x → x < r.ptr + SIZEOF_BIG_OBJECT → m2 x = m1 x) :
    BigSeg m2 recs tail := by
  induction recs with
  | nil => trivial
  | cons r rest ih =>
    rw [BigSeg_cons] at h ⊢
    obtain ⟨h1, h2, h3, h4, h5⟩ := h
    have hr := hm r (List.mem_cons_self r rest)
    refine ⟨h1, ?_, ?_, ?_, ih h5 (fun s hs => hm s (List.mem_cons_of_mem r hs))⟩
    · rw [← h2]
      exact load64_congr m1 m2 _ (fun x hx1 hx2 => hr x
        (by simp only [BIG_NEXT] at hx1; omega)
        (by simp only [BIG_NEXT, SIZEOF_BIG_OBJECT] at *; omega))
    · rw [← h3]
      exact load64_congr m1 m2 _ (fun x hx1 hx2 => hr x
        (by simp only [BIG_ADDR] at hx1; omega)
        (by simp only [BIG_ADDR, SIZEOF_BIG_OBJECT] at *; omega))
    · rw [← h4]
      exact load64_congr m1 m2 _ (fun x hx1 hx2 => hr x
        (by simp only [BIG_SIZE] at hx1; omega)
        (by simp only [BIG_SIZE, SIZEOF_BIG_OBJECT] at *; omega))

theorem BigSeg_append (m : Mem) (xs ys : List big_record) (tail : Nat) :
    BigSeg m (xs ++ ys) tail ↔ BigSeg m xs (headPtr ys tail) ∧ BigSeg m ys tail := by
  induction xs with
  | nil => simp [BigSeg]
  | cons r rest ih =>
    simp only [List.cons_append, BigSeg_cons, ih, headPtr_append]
    tauto

/-- The scan stops at the first record whose `addr` is `p` and reports the
record before it (or the incoming `last`). -/
theorem big_scan_found (m : Mem) (p : Nat) (pre : List big_record) (r : big_record)
    (post : List big_record) (tail fuel last : Nat)
    (h : BigSeg m (pre ++ r :: post) tail) (hpre : ∀ q ∈ pre, q.addr ≠ p) (hr : r.addr = p)
    (hf : pre.length + 1 ≤ fuel) :
    big_scan m p fuel (headPtr (pre ++ r :: post) tail) last =
      .ok (some (r.ptr, headPtr pre.reverse last)) := by
  induction pre generalizing fuel last with
  | nil =>
    rw [List.nil_append, BigSeg_cons] at h
    obtain ⟨h1, _, h3, _, _⟩ := h
    cases fuel with
    | zero => simp at hf
    | succ k =>
      unfold big_scan
      simp only [List.nil_append, headPtr_cons, headPtr_nil, h1, if_false, h3, hr, bind,
        Except.bind, if_true, pure, Except.pure, List.reverse_nil]
  | cons q rest ih =>
    rw [List.cons_append, BigSeg_cons] at h
    obtain ⟨h1, h2, h3, _, h5⟩ := h
    have hq : q.addr ≠ p := hpre q (List.mem_cons_self q rest)
    cases fuel with
    | zero => simp at hf
    | succ k =>
      unfold big_scan
      simp only [List.cons_append, headPtr_cons, h1, if_false, h3, hq, h2, bind, Except.bind]
      rw [ih k q.ptr h5 (fun s hs => hpre s (List.mem_cons_of_mem q hs))
        (by simpa using hf)]
      simp only [List.reverse_cons, headPtr_append, headPtr_cons, headPtr_nil]

/-- The scan of a list with no record for `p` ends at `NULL` without a match. -/
theorem big_scan_none (m : Mem) (p : Nat) (recs : List big_record) (fuel last : Nat)
    (h : BigSeg m recs NULL) (hno : ∀ q ∈ recs, q.addr ≠ p) (hf : recs.length ≤ fuel) :
    big_scan m p fuel (headPtr recs NULL) last = .ok none := by
  induction recs generalizing fuel last with
  | nil => exact big_scan_null m p fuel last
  | cons q rest ih =>
    rw [BigSeg_cons] at h
    obtain ⟨h1, h2, h3, _, h5⟩ := h
    have hq : q.addr ≠ p := hno q (List.mem_cons_self q rest)
    cases fuel with
    | zero => simp at hf
    | succ k =>
      unfold big_scan
      simp only [headPtr_cons, h1, if_false, h3, hq, h2, bind, Except.bind]
      exact ih k q.ptr h5 (fun s hs => hno s (List.mem_cons_of_mem q hs)) (by simpa using hf)

/-- In a state with well-formed pools, `free` of a non-null pointer that lies
in a superblock and is no tracked region returns with the state unchanged. -/
theorem free_pooled_ok (fuel : Nat) (st : State) (chains : List (List Nat))
    (recs : List big_record) (ptr : Nat) (hp : PoolsOk st chains)
    (hhead : st.big_object_list = headPtr recs NULL) (hseg : BigSeg st.mem recs NULL)
    (hno : ∀ q ∈ recs, q.addr ≠ ptr)
    (hin : ∃ c ∈ chains, ∃ sb ∈ c, sb ≤ ptr ∧ ptr < sb + SUPER_BLOCK_SIZE)
    (hnn : ptr ≠ NULL) (hf1 : recs.length + 1 ≤ fuel) (hf2 : ∀ c ∈ chains, c.length + 1 ≤ fuel) :
    free fuel st ptr = .ok st := by
  cases fuel with
  | zero => simp at hf1
  | succ k =>
    obtain ⟨c, hc, sb, hsb, hlo, hhi⟩ := hin
    obtain ⟨hal, hb⟩ := hp.sb_aligned c hc sb hsb
    have hbase : obj2bkeep ptr = sb := obj2bkeep_in_page sb ptr hal hlo hhi hb
    obtain ⟨l, hl, hl7⟩ := hp.sb_level c hc sb hsb
    obtain ⟨fl, hfl⟩ := hp.sb_free_list c hc sb hsb
    have hen : enable_bookkeeping k st = .ok () :=
      hp.bookkeeping k (fun c hc => by have := hf2 c hc; omega)
    have hscan := big_scan_none st.mem ptr recs k NULL hseg hno (by omega)
    have hlt : l < st.levels.length := by rw [hp.levels_len]; exact hl7
    have hlev : ∃ pool, st.levels[l]? = some pool :=
      ⟨st.levels[l], List.getElem?_eq_getElem hlt⟩
    obtain ⟨pool, hpool⟩ := hlev
    have hnl : ¬ LEVELS ≤ l := by omega
    unfold free
    simp only [hnn, if_false, hen, hbase, hl, hhead, hscan, hfl, hnl, hpool, release_loop,
      disable_bookkeeping_eq, bind, Except.bind, pure, Except.pure, ite_self]

/-! ## Freeing a tracked region -/

theorem pageRound_pos (n : Nat) (h : 0 < n) : SUPER_BLOCK_SIZE ≤ pageRound n := by
  simp only [pageRound, SUPER_BLOCK_SIZE]
  omega

theorem munmap_wrap_eq (st : State) (addr length : Nat) (ha : addr % SUPER_BLOCK_SIZE = 0)
    (hl : 0 < length) (hb : addr + pageRound length ≤ 2 ^ 64) :
    munmap_wrap st addr length =
      { st with
          mem := fun a => if addr ≤ a ∧ a < addr + pageRound length then none else st.mem a
          unmapped := (addr, length) :: st.unmapped } := by
  have h : ¬ (addr % SUPER_BLOCK_SIZE ≠ 0 ∨ length = 0 ∨ 2 ^ 64 < addr + pageRound length) := by
    intro h
    rcases h with h | h | h
    · exact h ha
    · omega
    · omega
  simp only [munmap_wrap, h, if_false]

/-- Bytes of a record lie outside every tracked region. -/
theorem BigHeap.rec_outside {st : State} {chains : List (List Nat)} {recs : List big_record}
    (h : BigHeap st chains recs) (q r : big_record) (hq : q ∈ recs) (hr : r ∈ recs) (x : Nat)
    (hx1 : q.ptr ≤ x) (hx2 : x < q.ptr + SIZEOF_BIG_OBJECT) :
    ¬ (r.addr ≤ x ∧ x < r.addr + pageRound r.size) := by
  obtain ⟨c, hc, sb, hsb, h1, h2⟩ := h.rec_in_sb q hq
  have h3 := h.region_sep r hr c hc sb hsb
  simp only [SUPER_BLOCK_SIZE, MIN_ALLOC, SIZEOF_BIG_OBJECT] at *
  omega

/-- Header bytes of a superblock lie outside every tracked region. -/
theorem BigHeap.header_outside {st : State} {chains : List (List Nat)}
    {recs : List big_record} (h : BigHeap st chains recs) (r : big_record) (hr : r ∈ recs)
    (c : List Nat) (hc : c ∈ chains) (sb : Nat) (hsb : sb ∈ c) (x : Nat)
    (hx1 : sb ≤ x) (hx2 : x < sb + MIN_ALLOC) :
    ¬ (r.addr ≤ x ∧ x < r.addr + pageRound r.size) := by
  have h3 := h.region_sep r hr c hc sb hsb
  simp only [SUPER_BLOCK_SIZE, MIN_ALLOC] at *
  omega

/-- Header bytes of a superblock lie outside the `next` field of every record. -/
theorem BigHeap.header_not_rec {st : State} {chains : List (List Nat)}
    {recs : List big_record} (h : BigHeap st chains recs) (q : big_record) (hq : q ∈ recs)
    (c : List Nat) (hc : c ∈ chains) (sb : Nat) (hsb : sb ∈ c) (x : Nat)
    (hx1 : sb ≤ x) (hx2 : x < sb + MIN_ALLOC) :
    ¬ (q.ptr ≤ x ∧ x < q.ptr + 8) := by
  obtain ⟨c2, hc2, sb2, hsb2, h1, h2⟩ := h.rec_in_sb q hq
  obtain ⟨ha, _⟩ := h.pools.sb_aligned c hc sb hsb
  obtain ⟨ha2, _⟩ := h.pools.sb_aligned c2 hc2 sb2 hsb2
  simp only [SUPER_BLOCK_SIZE, MIN_ALLOC, SIZEOF_BIG_OBJECT] at *
  omega

/-- Well-formed pools stay well-formed when memory changes outside the
superblock headers. -/
theorem PoolsOk.frame {st st2 : State} {chains : List (List Nat)} (h : PoolsOk st chains)
    (hlev : st2.levels = st.levels)
    (hm : ∀ c ∈ chains, ∀ sb ∈ c, ∀ x, sb ≤ x → x < sb + MIN_ALLOC → st2.mem x = st.mem x) :
    PoolsOk st2 chains where
  levels_len := by rw [hlev]; exact h.levels_len
  chain_of_pool := by rw [hlev]; exact h.chain_of_pool
  chain_ok := fun c hc => SbList_congr st.mem st2.mem c (h.chain_ok c hc)
    (fun sb hsb x hx1 hx2 => hm c hc sb hsb x hx1 (by simp only [MIN_ALLOC]; omega))
  sb_aligned := h.sb_aligned
  sb_free_list := fun c hc sb hsb => by
    obtain ⟨fl, hfl⟩ := h.sb_free_list c hc sb hsb
    refine ⟨fl, ?_⟩
    rw [← hfl]
    exact load64_congr st.mem st2.mem _ (fun x hx1 hx2 => hm c hc sb hsb x
      (by simp only [BKEEP_FREE_LIST] at hx1; omega)
      (by simp only [BKEEP_FREE_LIST, MIN_ALLOC] at *; omega))
  sb_level := fun c hc sb hsb => by
    obtain ⟨l, hl, hl7⟩ := h.sb_level c hc sb hsb
    refine ⟨l, ?_, hl7⟩
    rw [← hl]
    exact load8_congr st.mem st2.mem _ (hm c hc sb hsb _
      (by simp only [BKEEP_LEVEL]; omega) (by simp only [BKEEP_LEVEL, MIN_ALLOC]; omega))

/-- The call `free(r.addr)` for the first record `r` with this address: the
region is unmapped, the record is unlinked, and the nested `free` of the
record returns. -/
theorem free_big_core (fuel : Nat) (st : State) (chains : List (List Nat))
    (pre : List big_record) (r : big_record) (post : List big_record)
    (h : BigHeap st chains (pre ++ r :: post)) (hnn : r.addr ≠ NULL)
    (hfirst : ∀ q ∈ pre, q.addr ≠ r.addr)
    (hf1 : pre.length + post.length + 2 ≤ fuel) (hf2 : ∀ c ∈ chains, c.length + 2 ≤ fuel) :
    ∃ st2, free fuel st r.addr = .ok st2 ∧
      st2.unmapped = (r.addr, r.size) :: st.unmapped ∧
      st2.levels = st.levels ∧
      st2.big_object_list = headPtr (pre ++ post) NULL ∧
      BigSeg st2.mem (pre ++ post) NULL ∧
      PoolsOk st2 chains ∧
      (∀ a, (st2.mem a).isSome = true ↔
        ((st.mem a).isSome = true ∧ ¬ (r.addr ≤ a ∧ a < r.addr + pageRound r.size))) := by
  have hr : r ∈ pre ++ r :: post := by simp
  obtain ⟨hal, hsz, hb⟩ := h.region_aligned r hr
  have hsz0 : 0 < r.size := by omega
  have hP := pageRound_pos r.size hsz0
  have hseg := h.seg
  rw [BigSeg_append, BigSeg_cons] at hseg
  obtain ⟨hsegpre, hrn, hrnext, hraddr, hrsize, hsegpost⟩ := hseg
  obtain ⟨k, rfl⟩ : ∃ k, fuel = k + 1 := ⟨fuel - 1, by omega⟩
  have hen : enable_bookkeeping k st = .ok () :=
    h.pools.bookkeeping k (fun c hc => by have := hf2 c hc; omega)
  have hbase : obj2bkeep r.addr = r.addr :=
    obj2bkeep_in_page r.addr r.addr hal (le_refl _) (by simp [SUPER_BLOCK_SIZE]) (by omega)
  obtain ⟨l, hl⟩ : ∃ l, load8 st.mem (r.addr + BKEEP_LEVEL) = .ok l := by
    have := h.region_mapped r hr (r.addr + BKEEP_LEVEL) (by omega)
      (by simp only [BKEEP_LEVEL, SUPER_BLOCK_SIZE] at *; omega)
    cases hm : st.mem (r.addr + BKEEP_LEVEL) with
    | none => simp [hm] at this
    | some b => exact ⟨b, by simp [load8, hm]⟩
  have hscan := big_scan_found st.mem r.addr pre r post NULL k NULL h.seg hfirst rfl (by omega)
  have hst1 := munmap_wrap_eq st r.addr r.size hal hsz0 hb
  -- memory after the unmapping, on record bytes
  have hm1 : ∀ q ∈ pre ++ r :: post, ∀ x, q.ptr ≤ x → x < q.ptr + SIZEOF_BIG_OBJECT →
      (munmap_wrap st r.addr r.size).mem x = st.mem x := by
    intro q hq x hx1 hx2
    have := h.rec_outside q r hq hr x hx1 hx2
    rw [hst1]
    simp only [this, if_false]
  have hnext1 : load64 (munmap_wrap st r.addr r.size).mem (r.ptr + BIG_NEXT) =
      .ok (headPtr post NULL) := by
    rw [← hrnext]
    exact load64_congr _ _ _ (fun x hx1 hx2 => hm1 r hr x
      (by simp only [BIG_NEXT] at hx1; omega)
      (by simp only [BIG_NEXT, SIZEOF_BIG_OBJECT] at *; omega))
  -- the record pointer is no tracked address
  have hnoaddr : ∀ q ∈ pre ++ post, q.addr ≠ r.ptr := by
    intro q hq
    have hq2 : q ∈ pre ++ r :: post := by
      rcases List.mem_append.mp hq with hq | hq
      · exact List.mem_append_left _ hq
      · exact List.mem_append_right _ (List.mem_cons_of_mem r hq)
    obtain ⟨hqa, _, _⟩ := h.region_aligned q hq2
    obtain ⟨c, hc, sb, hsb, h1, h2⟩ := h.rec_in_sb r hr
    obtain ⟨ha, _⟩ := h.pools.sb_aligned c hc sb hsb
    simp only [SUPER_BLOCK_SIZE, MIN_ALLOC, SIZEOF_BIG_OBJECT] at *
    omega
  have hin : ∃ c ∈ chains, ∃ sb ∈ c, sb ≤ r.ptr ∧ r.ptr < sb + SUPER_BLOCK_SIZE := by
    obtain ⟨c, hc, sb, hsb, h1, h2⟩ := h.rec_in_sb r hr
    refine ⟨c, hc, sb, hsb, ?_, ?_⟩ <;>
      simp only [SUPER_BLOCK_SIZE, MIN_ALLOC, SIZEOF_BIG_OBJECT] at * <;> omega
  rcases List.eq_nil_or_concat pre with hpre | ⟨pre1, l1, hpre⟩
  · subst hpre
    have hpools : PoolsOk { munmap_wrap st r.addr r.size with
        big_object_list := headPtr post NULL } chains := by
      apply h.pools.frame
      · rw [hst1]
      · intro c hc sb hsb x hx1 hx2
        have := h.header_outside r hr c hc sb hsb x hx1 hx2
        rw [hst1]
        simp only [this, if_false]
    have hseg2 : BigSeg (munmap_wrap st r.addr r.size).mem post NULL :=
      BigSeg_congr st.mem _ post NULL hsegpost (fun q hq x hx1 hx2 =>
        hm1 q (List.mem_append_right _ (List.mem_cons_of_mem r hq)) x hx1 hx2)
    have hrec := free_pooled_ok k { munmap_wrap st r.addr r.size with
        big_object_list := headPtr post NULL } chains post r.ptr hpools rfl hseg2
      (by simpa using hnoaddr) hin hrn (by simp at hf1; omega)
      (fun c hc => by have := hf2 c hc; omega)
    refine ⟨{ munmap_wrap st r.addr r.size with big_object_list := headPtr post NULL },
      ?_, ?_, ?_, rfl, hseg2, hpools, ?_⟩
    · unfold free
      simp only [hnn, if_false, hen, hbase, hl, h.head, hscan, hraddr, hrsize, hnext1,
        List.reverse_nil, headPtr_nil, if_true, bind, Except.bind, pure, Except.pure]
      exact hrec
    · rw [hst1]
    · rw [hst1]
    · intro a
      rw [hst1]
      by_cases ha : r.addr ≤ a ∧ a < r.addr + pageRound r.size <;> simp [ha]
  · rw [List.concat_eq_append] at hpre
    subst hpre
    have hl1 : l1 ∈ (pre1 ++ [l1]) ++ r :: post := by simp
    have hdis := h.rec_disjoint
    rw [List.pairwise_append] at hdis
    obtain ⟨hdis1, _, hdis3⟩ := hdis
    rw [List.pairwise_append] at hdis1
    obtain ⟨_, _, hdis4⟩ := hdis1
    rw [BigSeg_append, BigSeg_cons] at hsegpre
    obtain ⟨hsegpre1, hl1n, hl1next, hl1addr, hl1size, _⟩ := hsegpre
    have hlast : headPtr (pre1 ++ [l1]).reverse NULL = l1.ptr := by
      simp only [List.reverse_append, List.reverse_cons, List.reverse_nil, List.nil_append,
        List.singleton_append, headPtr_cons]
    -- the value stored is a 64-bit pointer
    have hnx : headPtr post NULL < 2 ^ 64 := by
      cases post with
      | nil => simp [headPtr, NULL]
      | cons q qs =>
        obtain ⟨c, hc, sb, hsb, _, h2⟩ := h.rec_in_sb q (by simp)
        obtain ⟨_, hb2⟩ := h.pools.sb_aligned c hc sb hsb
        simp only [headPtr_cons, SUPER_BLOCK_SIZE, SIZEOF_BIG_OBJECT] at *
        omega
    have hmap : mapped (munmap_wrap st r.addr r.size).mem 8 (l1.ptr + BIG_NEXT) = true := by
      apply loadLE_mapped _ 8 _ (headPtr [] (headPtr (r :: post) NULL))
      rw [← hl1next]
      exact load64_congr _ _ _ (fun x hx1 hx2 => hm1 l1 hl1 x
        (by simp only [BIG_NEXT] at hx1; omega)
        (by simp only [BIG_NEXT, SIZEOF_BIG_OBJECT] at *; omega))
    have hstore := store64_ok (munmap_wrap st r.addr r.size).mem (l1.ptr + BIG_NEXT)
      (headPtr post NULL) hmap
    -- the final memory away from the stored field and the region
    have hm2 : ∀ x, ¬ (l1.ptr ≤ x ∧ x < l1.ptr + 8) →
        ¬ (r.addr ≤ x ∧ x < r.addr + pageRound r.size) →
        poke64 (munmap_wrap st r.addr r.size).mem (l1.ptr + BIG_NEXT) (headPtr post NULL) x =
          st.mem x := by
      intro x hx1 hx2
      have hx3 : ¬ (l1.ptr + BIG_NEXT ≤ x ∧ x < l1.ptr + BIG_NEXT + 8) := by
        simpa [BIG_NEXT] using hx1
      rw [hst1]
      simp only [poke64, hx3, hx2, if_false]
    have hm2rec : ∀ q ∈ (pre1 ++ [l1]) ++ r :: post,
        (q.ptr + SIZEOF_BIG_OBJECT ≤ l1.ptr ∨ l1.ptr + SIZEOF_BIG_OBJECT ≤ q.ptr) →
        ∀ x, q.ptr ≤ x → x < q.ptr + SIZEOF_BIG_OBJECT →
        poke64 (munmap_wrap st r.addr r.size).mem (l1.ptr + BIG_NEXT) (headPtr post NULL) x =
          st.mem x := by
      intro q hq hd x hx1 hx2
      exact hm2 x (by simp only [SIZEOF_BIG_OBJECT] at *; omega) (h.rec_outside q r hq hr x hx1 hx2)
    have hpools : PoolsOk { munmap_wrap st r.addr r.size with
        mem := poke64 (munmap_wrap st r.addr r.size).mem (l1.ptr + BIG_NEXT)
          (headPtr post NULL) } chains := by
      apply h.pools.frame
      · rw [hst1]
      · intro c hc sb hsb x hx1 hx2
        exact hm2 x (h.header_not_rec l1 hl1 c hc sb hsb x hx1 hx2)
          (h.header_outside r hr c hc sb hsb x hx1 hx2)
    have hseg2 : BigSeg (poke64 (munmap_wrap st r.addr r.size).mem (l1.ptr + BIG_NEXT)
        (headPtr post NULL)) ((pre1 ++ [l1]) ++ post) NULL := by
      rw [List.append_assoc, List.singleton_append, BigSeg_append, BigSeg_cons]
      refine ⟨?_, hl1n, ?_, ?_, ?_, ?_⟩
      · exact BigSeg_congr st.mem _ pre1 _ hsegpre1 (fun q hq x hx1 hx2 =>
          hm2rec q (by simp [hq]) (hdis4 q hq l1 (by simp)) x hx1 hx2)
      · exact load64_poke64 _ _ _ hnx
      · rw [← hl1addr]
        exact load64_congr _ _ _ (fun x hx1 hx2 => hm2 x
          (by simp only [BIG_ADDR] at hx1; omega)
          (h.rec_outside l1 r hl1 hr x (by simp only [BIG_ADDR] at hx1; omega)
            (by simp only [BIG_ADDR, SIZEOF_BIG_OBJECT] at *; omega)))
      · rw [← hl1size]
        exact load64_congr _ _ _ (fun x hx1 hx2 => hm2 x
          (by simp only [BIG_SIZE] at hx1; omega)
          (h.rec_outside l1 r hl1 hr x (by simp only [BIG_SIZE] at hx1; omega)
            (by simp only [BIG_SIZE, SIZEOF_BIG_OBJECT] at *; omega)))
      · exact BigSeg_congr st.mem _ post NULL hsegpost (fun q hq x hx1 hx2 =>
          hm2rec q (by simp [hq])
            ((hdis3 l1 (by simp) q (List.mem_cons_of_mem r hq)).symm) x hx1 hx2)
    have hhead2 : (munmap_wrap st r.addr r.size).big_object_list =
        headPtr ((pre1 ++ [l1]) ++ post) NULL := by
      rw [hst1]
      show st.big_object_list = _
      rw [h.head]
      cases pre1 <;> rfl
    have hrec := free_pooled_ok k { munmap_wrap st r.addr r.size with
        mem := poke64 (munmap_wrap st r.addr r.size).mem (l1.ptr + BIG_NEXT)
          (headPtr post NULL) } chains ((pre1 ++ [l1]) ++ post) r.ptr hpools hhead2 hseg2
      hnoaddr hin hrn (by simp at hf1 ⊢; omega)
      (fun c hc => by have := hf2 c hc; omega)
    refine ⟨{ munmap_wrap st r.addr r.size with
        mem := poke64 (munmap_wrap st r.addr r.size).mem (l1.ptr + BIG_NEXT)
          (headPtr post NULL) }, ?_, ?_, ?_, hhead2, hseg2, hpools, ?_⟩
    · unfold free
      simp only [hnn, if_false, hen, hbase, hl, h.head, hscan, hraddr, hrsize, hnext1,
        hlast, hl1n, hstore, bind, Except.bind, pure, Except.pure]
      exact hrec
    · rw [hst1]
    · rw [hst1]
    · intro a
      show ((poke64 (munmap_wrap st r.addr r.size).mem (l1.ptr + BIG_NEXT)
        (headPtr post NULL)) a).isSome = true ↔ _
      rw [poke64_isSome _ _ _ _ hmap, hst1]
      by_cases ha : r.addr ≤ a ∧ a < r.addr + pageRound r.size <;> simp [ha]

theorem poke64_isSome_mono (m : Mem) (a v x : Nat) (h : (m x).isSome = true) :
    ((poke64 m a v) x).isSome = true := by
  unfold poke64
  split
  · rfl
  · exact h

theorem zeroPages_isSome (b n : Nat) (m : Mem) (x : Nat) :
    ((zeroPages b n m) x).isSome = true ↔ (b ≤ x ∧ x < b + n) ∨ (m x).isSome = true := by
  unfold zeroPages
  split <;> simp [*]

/-- The example state `big_list_state` is a well-formed heap with the records
`big_list_records`. -/
theorem big_list_state_heap :
    BigHeap big_list_state [[0x10000], []] big_list_records where
  pools :=
    { levels_len := rfl
      chain_of_pool := by
        intro pool hp
        simp only [big_list_state, List.replicate, List.mem_cons, List.mem_singleton,
          List.not_mem_nil, or_false, or_self] at hp
        rcases hp with rfl | rfl
        · exact ⟨[0x10000], by simp, rfl⟩
        · exact ⟨[], by simp, rfl⟩
      chain_ok := by
        intro c hc
        simp only [List.mem_cons, List.mem_singleton, List.not_mem_nil, or_false] at hc
        rcases hc with rfl | rfl
        · exact ⟨by decide, rfl, trivial⟩
        · trivial
      sb_aligned := by decide
      sb_free_list := by
        intro c hc sb hsb
        simp only [List.mem_cons, List.mem_singleton, List.not_mem_nil, or_false] at hc
        rcases hc with rfl | rfl
        · simp only [List.mem_singleton] at hsb
          subst hsb
          exact ⟨0, rfl⟩
        · simp at hsb
      sb_level := by
        intro c hc sb hsb
        simp only [List.mem_cons, List.mem_singleton, List.not_mem_nil, or_false] at hc
        rcases hc with rfl | rfl
        · simp only [List.mem_singleton] at hsb
          subst hsb
          exact ⟨0, rfl, by decide⟩
        · simp at hsb }
  head := rfl
  seg := ⟨by decide, rfl, rfl, rfl, by decide, rfl, rfl, rfl, by decide, rfl, rfl, rfl, trivial⟩
  rec_in_sb := by
    intro r hr
    refine ⟨[0x10000], by simp, 0x10000, by simp, ?_⟩
    simp only [big_list_records, List.mem_cons, List.mem_singleton, List.not_mem_nil,
      or_false] at hr
    rcases hr with rfl | rfl | rfl <;> decide
  rec_disjoint := by decide
  region_aligned := by decide
  region_mapped := by
    intro r hr a h1 h2
    simp only [big_list_records, List.mem_cons, List.mem_singleton, List.not_mem_nil,
      or_false] at hr
    have key : ∀ x, (0x20000 ≤ x ∧ x < 0x22000) ∨ (0x30000 ≤ x ∧ x < 0x31000) ∨
        (0x40000 ≤ x ∧ x < 0x42000) → (big_list_state.mem x).isSome = true := by
      intro x hx
      unfold big_list_state
      dsimp only
      repeat apply poke64_isSome_mono
      simp only [zeroPages_isSome]
      omega
    rcases hr with rfl | rfl | rfl <;>
      simp only [pageRound, SUPER_BLOCK_SIZE] at h1 h2 <;>
      exact key a (by omega)
  region_sep := by decide

/-! ## Termination and failure results -/

theorem loadLE_error (m : Mem) (n a : Nat) (e : Err) (h : loadLE m n a = .error e) :
    e = .segv := by
  induction n generalizing a with
  | zero => simp [loadLE] at h
  | succ k ih =>
    simp only [loadLE, load8, bind, Except.bind] at h
    cases h0 : m a with
    | none =>
      simp only [h0] at h
      cases h
      rfl
    | some b =>
      simp only [h0] at h
      cases h1 : loadLE m k (a + 1) with
      | error e1 =>
        simp only [h1] at h
        cases h
        exact ih (a + 1) h1
      | ok w => simp [h1, pure, Except.pure] at h

theorem load8_error (m : Mem) (a : Nat) (e : Err) (h : load8 m a = .error e) : e = .segv := by
  unfold load8 at h
  split at h
  · cases h
  · cases h
    rfl

theorem store64_error (m : Mem) (a v : Nat) (e : Err) (h : store64 m a v = .error e) :
    e = .segv := by
  unfold store64 at h
  split at h
  · cases h
  · cases h
    rfl

/-- A pooled request, once the bookkeeping pass succeeds, ends at `return rv`. -/
theorem malloc_pooled_ok (k : Nat) (st : State) (size : Nat)
    (hen : enable_bookkeeping k st = .ok ()) (hs : size ≤ MAX_ALLOC) :
    malloc (k + 1) st size = .ok ({ st with errno := -ENOMEM }, NULL) := by
  have hs1 : ¬ size > MAX_ALLOC := by omega
  simp [malloc, hen, hs1]

/-- With finite superblock lists `malloc` needs two levels of fuel beyond the
longest list: it calls itself once, for the record. -/
theorem malloc_no_fuel_error (k : Nat) (st : State) (chains : List (List Nat))
    (h : PoolsOk st chains) (hf : ∀ c ∈ chains, c.length ≤ k) (s : Nat) :
    malloc (k + 2) st s ≠ .error .fuel := by
  have hen1 : enable_bookkeeping (k + 1) st = .ok () :=
    h.bookkeeping (k + 1) (fun c hc => by have := hf c hc; omega)
  have hen0 : enable_bookkeeping k st = .ok () := h.bookkeeping k hf
  by_cases hs : s ≤ MAX_ALLOC
  · rw [malloc_pooled_ok (k + 1) st s hen1 hs]
    simp
  · have hs1 : MAX_ALLOC < s := by omega
    have hin := malloc_pooled_ok k st SIZEOF_BIG_OBJECT hen0 (by decide)
    intro hbad
    unfold malloc at hbad
    simp only [hen1, hs1, gt_iff_lt, if_true, hin, bind, Except.bind] at hbad
    split at hbad
    · rename_i e he
      have := store64_error _ _ _ _ he
      cases hbad
      cases this
    · split at hbad
      · rename_i e he
        have := store64_error _ _ _ _ he
        cases hbad
        cases this
      · split at hbad
        · cases hbad
        · split at hbad
          · rename_i e he
            have := store64_error _ _ _ _ he
            cases hbad
            cases this
          · cases hbad

/-- The first record with address `x` splits the list around it. -/
theorem first_match_split (recs : List big_record) (x : Nat) (h : ∃ q ∈ recs, q.addr = x) :
    ∃ pre r post, recs = pre ++ r :: post ∧ r.addr = x ∧ ∀ q ∈ pre, q.addr ≠ x := by
  induction recs with
  | nil =>
    obtain ⟨q, hq, _⟩ := h
    exact absurd hq (List.not_mem_nil q)
  | cons a rest ih =>
    by_cases ha : a.addr = x
    · exact ⟨[], a, rest, rfl, ha, fun q hq => absurd hq (List.not_mem_nil q)⟩
    · obtain ⟨q, hq, hqx⟩ := h
      have hq2 : q ∈ rest := by
        rcases List.mem_cons.mp hq with hq | hq
        · subst hq
          exact absurd hqx ha
        · exact hq
      obtain ⟨pre, r, post, h1, h2, h3⟩ := ih ⟨q, hq2, hqx⟩
      refine ⟨a :: pre, r, post, by rw [h1]; rfl, h2, ?_⟩
      intro s hs
      rcases List.mem_cons.mp hs with hs | hs
      · subst hs
        exact ha
      · exact h3 s hs

/-- A pointer that is no tracked address makes `free` scan the whole list
once and end without running out of fuel. -/
theorem free_untracked_no_fuel_error (fuel : Nat) (st : State) (chains : List (List Nat))
    (recs : List big_record) (x : Nat) (hp : PoolsOk st chains)
    (hhead : st.big_object_list = headPtr recs NULL) (hseg : BigSeg st.mem recs NULL)
    (hno : ∀ q ∈ recs, q.addr ≠ x) (hf1 : recs.length + 1 ≤ fuel)
    (hf2 : ∀ c ∈ chains, c.length + 1 ≤ fuel) : free fuel st x ≠ .error .fuel := by
  by_cases hnn : x = NULL
  · rw [hnn, free_null]
    simp
  · obtain ⟨k, rfl⟩ : ∃ k, fuel = k + 1 := ⟨fuel - 1, by omega⟩
    have hen : enable_bookkeeping k st = .ok () :=
      hp.bookkeeping k (fun c hc => by have := hf2 c hc; omega)
    have hscan := big_scan_none st.mem x recs k NULL hseg hno (by omega)
    intro hbad
    unfold free at hbad
    simp only [hnn, if_false, hen, hhead, hscan, release_loop, disable_bookkeeping_eq, bind,
      Except.bind, ite_self] at hbad
    split at hbad
    · rename_i e he
      have := load8_error _ _ _ he
      cases hbad
      cases this
    · split at hbad
      · rename_i e he
        have := loadLE_error _ _ _ _ he
        cases hbad
        cases this
      · split at hbad
        · cases hbad
        · split at hbad
          · cases hbad
          · cases hbad

/-! ## The claims -/

/-- Claim C1: on the six sizes checked by `test8` (0, 32, 33, 64, 65, 1999)
`size2level` returns 0 every time, where the smallest fitting classes are
0, 0, 1, 1, 2, 6. -/
theorem size2level_test8_inputs :
    [0, 32, 33, 64, 65, 1999].map size2level = [0, 0, 0, 0, 0, 0] := by
  decide

/-- Claim C2: from the initial state, with an operating system ready to hand
out a page, `malloc(32)` returns `NULL`; it sets `errno` and consumes no
mapping. -/
theorem malloc_32_returns_null (supply : List (Option Nat)) (fuel : Nat) :
    malloc (fuel + 1) (init (some 0x7f0000000000 :: supply)) 32 =
      .ok ({ init (some 0x7f0000000000 :: supply) with errno := -ENOMEM }, NULL) :=
  malloc_pooled fuel _ 32 rfl (by decide)

/-- Claim C3: two `malloc(32)` calls in a row from the initial state, with no
`free` between them, return the same address (`NULL` both times). -/
theorem two_mallocs_same_address (supply : List (Option Nat)) (fuel : Nat) :
    mallocs (fuel + 1) 32 2 (init supply) =
      .ok ({ init supply with errno := -ENOMEM }, [NULL, NULL]) := by
  have h1 := malloc_pooled fuel (init supply) 32 rfl (by decide)
  have h2 := malloc_pooled fuel { init supply with errno := -ENOMEM } 32 rfl (by decide)
  simp only [mallocs, bind, Except.bind, h1, h2]
  rfl

/-- Claim C4: in every state `free(NULL)` returns and leaves the whole state
as it was, and so does any number of `free(NULL)` calls in a row. -/
theorem free_null_noop (fuel : Nat) (st : State) (n : Nat) :
    free fuel st NULL = .ok st ∧ free_times fuel NULL n st = .ok st := by
  refine ⟨free_null fuel st, ?_⟩
  induction n with
  | zero => rfl
  | succ k ih => simp only [free_times, bind, Except.bind, free_null, ih]

/-- Claim C5: the calls of `test4` from the initial state (three
`malloc(2048)`, then the three results freed) return three `NULL` pointers and
end with no region handed to `munmap`. -/
theorem test4_unmaps_nothing (supply : List (Option Nat)) (fuel : Nat) :
    ∃ st, test4 (fuel + 1) (init supply) = .ok (st, [NULL, NULL, NULL]) ∧
      st.unmapped = [] ∧ counters st = List.replicate LEVELS (0, 0) := by
  obtain ⟨e, he⟩ := mallocs_pooled fuel 2048 (by decide) 3 (init supply) rfl
  refine ⟨{ init supply with errno := e }, ?_, rfl, rfl⟩
  have hf : frees (fuel + 1) { init supply with errno := e } [NULL, NULL, NULL] =
      .ok { init supply with errno := e } :=
    frees_of_all _ _ _ (fun p hp => by
      have : p = NULL := by simpa using hp
      subst this
      exact free_null _ _)
  have he1 : mallocs (fuel + 1) 2048 3 (init supply) =
      .ok ({ init supply with errno := e }, [NULL, NULL, NULL]) := he
  simp only [test4, bind, Except.bind, he1, hf]
  rfl

/-- Claim C6: from the initial state `malloc(32)` returns `NULL`, and the byte
at the returned address is not mapped, so it does not hold `ALLOC_POISON`. -/
theorem malloc_32_not_poisoned (supply : List (Option Nat)) (fuel : Nat) :
    ∃ st p, malloc (fuel + 1) (init supply) 32 = .ok (st, p) ∧ p = NULL ∧
      load8 st.mem p = .error .segv :=
  ⟨_, _, malloc_pooled fuel (init supply) 32 rfl (by decide), rfl, rfl⟩

/-- Claim C7: freeing the allocated 32-byte object at `0x10020` of
`full_superblock_state` returns with the state as it was: byte 8 of the object
still holds `ALLOC_POISON`, which differs from `FREE_POISON`.  Through the
entry points alone, `p = malloc(32)` from the initial state followed by
`free(p)` leaves byte `p + 8` unmapped. -/
theorem free_leaves_object_unpoisoned :
    (free 2 full_superblock_state 0x10020 = .ok full_superblock_state ∧
      load8 full_superblock_state.mem (0x10020 + 8) = .ok ALLOC_POISON ∧
      ALLOC_POISON ≠ FREE_POISON) ∧
    ∃ st p, malloc 1 (init []) 32 = .ok (st, p) ∧ free 1 st p = .ok st ∧
      load8 st.mem (p + 8) = .error .segv :=
  ⟨⟨rfl, rfl, by decide⟩, _, _, rfl, rfl, rfl⟩

/-- Claim C8: from the initial state `malloc(8192)` does not return: the
nested `malloc` for the record yields `NULL` and the store to `biggun->next`
faults, before any mapping is requested. -/
theorem malloc_8192_faults (supply : List (Option Nat)) (fuel : Nat) :
    malloc (fuel + 2) (init supply) 8192 = .error .segv := by
  have hk : SIZEOF_BIG_OBJECT ≤ MAX_ALLOC := by decide
  have hs : MAX_ALLOC < 8192 := by decide
  have h0 := malloc_pooled fuel (init supply) SIZEOF_BIG_OBJECT rfl hk
  have h1 : store64 (init supply).mem (NULL + BIG_NEXT) (init supply).big_object_list =
      .error .segv := rfl
  unfold malloc
  simp only [enable_bookkeeping_empty (fuel + 1) (init supply) rfl, hs, h0, h1, bind,
    Except.bind, gt_iff_lt, if_true]

/-- Claim C9: `size2level` never returns the out-of-range value -1; for 2049,
4096 and 8192, all above `MAX_ALLOC`, it returns 0. -/
theorem size2level_never_out_of_range :
    (∀ size, size2level size ≠ -1) ∧ [2049, 4096, 8192].map size2level = [0, 0, 0] :=
  ⟨fun size => by simp [size2level], by decide⟩

/-- Claim C11: `alloc_super` never asks the operating system for a page.  In
the initial state with an operating system that refuses every mapping it
faults on its first store, whatever value the unassigned `page` holds; with a
page present at that address it returns the page, not `NULL`, and has already
put it at the head of the pool and raised `whole_superblocks`. -/
theorem alloc_super_ignores_os :
    (∀ page, alloc_super (init [none]) 0 page = .error .segv) ∧
      ∃ st, alloc_super fresh_page_state 0 0x10000 = .ok (st, 0x10000) ∧
        st.levels[0]? = some ⟨0x10000, 0, 1⟩ ∧ st.mmap_supply = [none] :=
  ⟨fun page => by simp [alloc_super, init, LEVELS, store64, mapped]; rfl, _, rfl, rfl, rfl⟩

/-- Claim C12: when the operating system refuses the mapping, `malloc(8192)`
reports nothing to its caller.  From the initial state it faults on the store
through the `NULL` record; where that store can succeed
(`null_page_state`), the refused mapping's `MAP_FAILED` passes
`assert(biggun->addr)` and is returned as the address of the allocation. -/
theorem malloc_large_refused :
    malloc 2 (init [none]) 8192 = .error .segv ∧
      ∃ st, malloc 2 null_page_state 8192 = .ok (st, MAP_FAILED) ∧ st.errno = ENOMEM ∧
        MAP_FAILED ≠ NULL :=
  ⟨rfl, _, rfl, rfl, by decide⟩

/-- Claim C13: in a well-formed heap, `free` of the non-null address of the
first record `r` that tracks it returns; it hands exactly `(r.addr, r.size)`
to `munmap`, unmapping that region and nothing else, leaves the big-object
list as the original list without `r`, the other records in their order, and
leaves every pool and every superblock page mapped as before. -/
theorem free_big_unlinks (fuel : Nat) (st : State) (chains : List (List Nat))
    (pre : List big_record) (r : big_record) (post : List big_record)
    (h : BigHeap st chains (pre ++ r :: post)) (hnn : r.addr ≠ NULL)
    (hfirst : ∀ q ∈ pre, q.addr ≠ r.addr)
    (hf1 : pre.length + post.length + 2 ≤ fuel) (hf2 : ∀ c ∈ chains, c.length + 2 ≤ fuel) :
    ∃ st2, free fuel st r.addr = .ok st2 ∧
      st2.unmapped = (r.addr, r.size) :: st.unmapped ∧
      (∀ a, (st2.mem a).isSome = true ↔
        ((st.mem a).isSome = true ∧ ¬ (r.addr ≤ a ∧ a < r.addr + pageRound r.size))) ∧
      st2.big_object_list = headPtr (pre ++ post) NULL ∧
      BigSeg st2.mem (pre ++ post) NULL ∧
      st2.levels = st.levels ∧
      ∀ c ∈ chains, ∀ sb ∈ c, ∀ a, sb ≤ a → a < sb + SUPER_BLOCK_SIZE →
        (st2.mem a).isSome = (st.mem a).isSome := by
  obtain ⟨st2, h1, h2, h3, h4, h5, _, h7⟩ :=
    free_big_core fuel st chains pre r post h hnn hfirst hf1 hf2
  refine ⟨st2, h1, h2, h7, h4, h5, h3, ?_⟩
  intro c hc sb hsb a ha1 ha2
  have hsep := h.region_sep r (by simp) c hc sb hsb
  have hout : ¬ (r.addr ≤ a ∧ a < r.addr + pageRound r.size) := by omega
  have := h7 a
  cases hx : (st2.mem a).isSome <;> cases hy : (st.mem a).isSome <;> simp_all

theorem free_big_unlinks_witness :
    BigHeap big_list_state [[0x10000], []]
        ([⟨0x10020, 0x20000, 8192⟩] ++ ⟨0x10040, 0x30000, 3000⟩ :: [⟨0x10060, 0x40000, 5000⟩]) ∧
      (0x30000 : Nat) ≠ NULL ∧
      ∃ st2, free 4 big_list_state 0x30000 = .ok st2 ∧
        st2.unmapped = [(0x30000, 3000)] ∧
        st2.big_object_list = 0x10020 ∧
        BigSeg st2.mem [⟨0x10020, 0x20000, 8192⟩, ⟨0x10060, 0x40000, 5000⟩] NULL ∧
        st2.levels = big_list_state.levels := by
  refine ⟨big_list_state_heap, by decide, ?_⟩
  obtain ⟨st2, h1, h2, _, h4, h5, h6, _⟩ :=
    free_big_unlinks 4 big_list_state [[0x10000], []] [⟨0x10020, 0x20000, 8192⟩]
      ⟨0x10040, 0x30000, 3000⟩ [⟨0x10060, 0x40000, 5000⟩] big_list_state_heap (by decide)
      (by decide) (by decide) (by decide)
  exact ⟨st2, h1, h2, h4, h5, h6⟩

/-- Claim C14: freeing the allocated object at `0x10020` of
`full_superblock_state` returns with the superblock's `free_list` still
`NULL`, its `free_count` still 0 and every pool counter unchanged. -/
theorem free_updates_no_count :
    free 2 full_superblock_state 0x10020 = .ok full_superblock_state ∧
      load64 full_superblock_state.mem (0x10000 + BKEEP_FREE_LIST) = .ok NULL ∧
      load8 full_superblock_state.mem (0x10000 + BKEEP_FREE_COUNT) = .ok 0 ∧
      counters full_superblock_state = List.replicate LEVELS (0, 0) :=
  ⟨rfl, rfl, rfl, rfl⟩

/-- Claim C15: in `one_free_state`, whose level-0 pool holds a free object,
`malloc(32)` returns `NULL` and changes only `errno`: the object stays on the
free list, `free_count` stays 1 and the pool still counts one free object. -/
theorem malloc_pops_nothing :
    malloc 2 one_free_state 32 = .ok ({ one_free_state with errno := -ENOMEM }, NULL) ∧
      load64 one_free_state.mem (0x10000 + BKEEP_FREE_LIST) = .ok 0x10020 ∧
      load8 one_free_state.mem (0x10000 + BKEEP_FREE_COUNT) = .ok 1 ∧
      counters one_free_state = (1, 0) :: List.replicate 6 (0, 0) :=
  ⟨rfl, rfl, rfl, rfl⟩

/-- Claim C16: `alloc_super(3)` on a fresh page at `0x10000` links the page at
the head of pool 3, writes `level = 3` and raises `whole_superblocks` to 1, but
leaves `free_list` at `NULL`, `free_count` at 0 and the pool's `free_objects`
at 0, where a superblock of 256-byte objects has `4096 / 256 - 1 = 15` of
them. -/
theorem alloc_super_builds_no_free_list :
    ∃ st, alloc_super fresh_page_state 3 0x10000 = .ok (st, 0x10000) ∧
      st.levels[3]? = some ⟨0x10000, 0, 1⟩ ∧
      load8 st.mem (0x10000 + BKEEP_LEVEL) = .ok 3 ∧
      load64 st.mem (0x10000 + BKEEP_FREE_LIST) = .ok NULL ∧
      load8 st.mem (0x10000 + BKEEP_FREE_COUNT) = .ok 0 ∧
      SUPER_BLOCK_SIZE / (MIN_ALLOC * 2 ^ 3) - 1 = 15 :=
  ⟨_, rfl, rfl, rfl, rfl, rfl, rfl⟩

/-- Claim C17: for every 64-bit address `a`, `obj2bkeep a` is `a` rounded
down to a multiple of `SUPER_BLOCK_SIZE`: all bits above bit 11 are kept, the
low 12 bits are cleared, and an address at offset `o < 4096` from a
page-aligned base `b` is mapped to `b`. -/
theorem obj2bkeep_rounds_down (a : Nat) (ha : a < 2 ^ 64) :
    obj2bkeep a = a - a % SUPER_BLOCK_SIZE ∧
      obj2bkeep a / SUPER_BLOCK_SIZE = a / SUPER_BLOCK_SIZE ∧
      obj2bkeep a % SUPER_BLOCK_SIZE = 0 ∧
      ∀ b o, b % SUPER_BLOCK_SIZE = 0 → o < SUPER_BLOCK_SIZE → a = b + o → obj2bkeep a = b := by
  have h := obj2bkeep_eq a ha
  simp only [SUPER_BLOCK_SIZE] at h ⊢
  refine ⟨h, by omega, by omega, ?_⟩
  intro b o hb ho hab
  omega

theorem obj2bkeep_rounds_down_witness :
    0xffff800012345abc < 2 ^ 64 ∧
      (obj2bkeep 0xffff800012345abc = 0xffff800012345abc - 0xffff800012345abc % SUPER_BLOCK_SIZE ∧
        obj2bkeep 0xffff800012345abc / SUPER_BLOCK_SIZE = 0xffff800012345abc / SUPER_BLOCK_SIZE ∧
        obj2bkeep 0xffff800012345abc % SUPER_BLOCK_SIZE = 0 ∧
        ∀ b o, b % SUPER_BLOCK_SIZE = 0 → o < SUPER_BLOCK_SIZE → 0xffff800012345abc = b + o →
          obj2bkeep 0xffff800012345abc = b) :=
  ⟨by decide, obj2bkeep_rounds_down 0xffff800012345abc (by decide)⟩

/-- Claim C18: in a well-formed heap (finite acyclic superblock lists and
big-object list) every call of `malloc` and of `free` ends once the fuel
exceeds the longest list by two: the record size 24 is at most `MAX_ALLOC`,
the nested `malloc` for the record returns through the pooled branch without
calling `malloc` again, and `free` calls itself at most once, on the list
without the unlinked record. -/
theorem malloc_free_terminate (fuel : Nat) (st : State) (chains : List (List Nat))
    (recs : List big_record) (h : BigHeap st chains recs)
    (hf1 : recs.length + 2 ≤ fuel) (hf2 : ∀ c ∈ chains, c.length + 2 ≤ fuel) (s p : Nat) :
    SIZEOF_BIG_OBJECT ≤ MAX_ALLOC ∧
      malloc (fuel - 1) st SIZEOF_BIG_OBJECT = .ok ({ st with errno := -ENOMEM }, NULL) ∧
      malloc fuel st s ≠ .error .fuel ∧ free fuel st p ≠ .error .fuel := by
  obtain ⟨k, rfl⟩ : ∃ k, fuel = k + 2 := ⟨fuel - 2, by omega⟩
  have hk : ∀ c ∈ chains, c.length ≤ k := fun c hc => by have := hf2 c hc; omega
  refine ⟨by decide, ?_, malloc_no_fuel_error k st chains h.pools hk s, ?_⟩
  · exact malloc_pooled_ok k st SIZEOF_BIG_OBJECT (h.pools.bookkeeping k hk) (by decide)
  · by_cases hex : ∃ q ∈ recs, q.addr = p
    · by_cases hnn : p = NULL
      · rw [hnn, free_null]
        simp
      · obtain ⟨pre, r, post, h1, h2, h3⟩ := first_match_split recs p hex
        subst h1
        subst h2
        obtain ⟨st2, hst2, _⟩ := free_big_core (k + 2) st chains pre r post h hnn h3
          (by simp at hf1; omega) hf2
        rw [hst2]
        simp
    · exact free_untracked_no_fuel_error (k + 2) st chains recs p h.pools h.head h.seg
        (fun q hq hqa => hex ⟨q, hq, hqa⟩) (by omega) (fun c hc => by have := hf2 c hc; omega)

theorem malloc_free_terminate_witness :
    BigHeap big_list_state [[0x10000], []] big_list_records ∧
      big_list_records.length + 2 ≤ 5 ∧ (∀ c ∈ [[0x10000], []], c.length + 2 ≤ 5) ∧
      (SIZEOF_BIG_OBJECT ≤ MAX_ALLOC ∧
        malloc (5 - 1) big_list_state SIZEOF_BIG_OBJECT =
          .ok ({ big_list_state with errno := -ENOMEM }, NULL) ∧
        malloc 5 big_list_state 8192 ≠ .error .fuel ∧
        free 5 big_list_state 0x20000 ≠ .error .fuel) :=
  ⟨big_list_state_heap, by decide, by decide,
    malloc_free_terminate 5 big_list_state [[0x10000], []] big_list_records big_list_state_heap
      (by decide) (by decide) 8192 0x20000⟩

end ThAlloc
